import Mathlib

/-!
Verification development for the Claude Code history viewer
(src/viewer.py).  The Python source is shallowly embedded: JSON values
produced by json.loads become the inductive `Json`; the per-line work of
`parse_sessions` becomes `processLine`; the view-model methods of
`HistoryViewer` become pure functions on `ViewerState`.  Python
exceptions that the code can raise (AttributeError from attribute access
on a non-dict, KeyError from a missing mandatory key, TypeError from
str.join on a non-string) are modelled with `Except PyErr`.
-/

/-- A JSON value as returned by a successful json.loads of one line.
Objects are association lists; json.loads already collapses duplicate
keys, so the entry lists it produces have pairwise distinct keys.
Numbers are modelled as integers; no claim depends on fractional
values. -/
inductive Json where
  | null : Json
  | bool (b : Bool) : Json
  | num (n : Int) : Json
  | str (s : String) : Json
  | arr (items : List Json) : Json
  | obj (entries : List (String × Json)) : Json

/-- The Python exceptions the parsing path can raise (and does not catch):
AttributeError from calling .get or .strip on a value that lacks it,
KeyError from block["text"] on a dict without that key, TypeError from
"\n".join over a list containing a non-string. -/
inductive PyErr where
  | attributeError : PyErr
  | keyError : PyErr
  | typeError : PyErr
deriving DecidableEq

/-- Model of dict.get(k) on a parsed JSON object (keys unique). -/
def getKey : List (String × Json) → String → Option Json
  | [], _ => none
  | (k', v) :: kvs, k => if k' = k then some v else getKey kvs k

/-- Model of the Python comparison `x == "s"` where `x` is a dict.get
result: true exactly when the value is present and is the string s. -/
def isStrEq (v : Option Json) (s : String) : Bool :=
  match v with
  | some (.str t) => t = s
  | _ => false

/-- Model of str.lower(): Python lowercases each character.  Lean's
Char.toLower covers the ASCII range, which is all the claims exercise. -/
def pyLower (s : String) : String := ⟨s.data.map Char.toLower⟩

/-- Model of str.strip(): drop whitespace characters from both ends. -/
def pyStrip (s : String) : String :=
  ⟨((s.data.dropWhile Char.isWhitespace).reverse.dropWhile Char.isWhitespace).reverse⟩

/-- Model of the Python slice s[:n] on a string (never raises, returns
the whole string when it is shorter than n). -/
def pyTake (n : Nat) (s : String) : String := ⟨s.data.take n⟩

/-- Model of Path.stem for a filename matched by glob("*.jsonl"): the
name without its ".jsonl" extension (6 characters). -/
def fileStem (name : String) : String := ⟨name.data.take (name.data.length - 6)⟩

/-- Model of the block loop in parse_sessions (src/viewer.py lines
50-55): for each block, a dict whose "type" entry is the string "text"
contributes block["text"] (KeyError when the key is absent), a bare
string contributes itself, every other block is ignored.  The collected
parts are raw JSON values because Python appends block["text"] without
checking it is a string. -/
def collectParts : List Json → Except PyErr (List Json)
  | [] => .ok []
  | b :: bs =>
    match b with
    | .obj kvs =>
      if isStrEq (getKey kvs "type") "text" then
        match getKey kvs "text" with
        | some v =>
          match collectParts bs with
          | .error e => .error e
          | .ok rest => .ok (v :: rest)
        | none => .error .keyError
      else collectParts bs
    | .str s =>
      match collectParts bs with
      | .error e => .error e
      | .ok rest => .ok (Json.str s :: rest)
    | _ => collectParts bs

/-- The collected parts as strings, or none when some part is not a
string (which makes str.join raise TypeError). -/
def strParts : List Json → Option (List String)
  | [] => some []
  | Json.str s :: rest => (strParts rest).map (fun ss => s :: ss)
  | _ :: _ => none

/-- Model of "\n".join(parts): TypeError when any part is not a string. -/
def joinParts (parts : List Json) : Except PyErr String :=
  match strParts parts with
  | some ss => .ok (String.intercalate "\n" ss)
  | none => .error .typeError

/-- Model of src/viewer.py lines 48-56 followed by the .strip() call:
resolve the message content to the string the code goes on to strip.  A
list is flattened through collectParts/joinParts; a plain string is used
as is; any other value reaches content.strip() and raises
AttributeError. -/
def contentToString : Json → Except PyErr String
  | .arr blocks =>
    match collectParts blocks with
    | .error e => .error e
    | .ok parts => joinParts parts
  | .str s => .ok s
  | _ => .error .attributeError

/-- Model of the body of the per-line loop of parse_sessions
(src/viewer.py lines 38-58).  The input is the json.loads outcome for
the line: `none` when the line is invalid JSON (the caught
JSONDecodeError branch).  The result is `ok none` when the line is
skipped, `ok (some (text, timestamp, cwd))` when a prompt is to be
emitted (text already stripped and non-empty), and `error` when the
Python code would raise.  obj.get on a non-dict raises AttributeError,
matching the code which catches only JSONDecodeError. -/
def processLine (line : Option Json) : Except PyErr (Option (String × Json × Json)) :=
  match line with
  | none => .ok none
  | some (.obj okvs) =>
    if isStrEq (getKey okvs "type") "user" then
      match (getKey okvs "message").getD (.obj []) with
      | .obj mkvs =>
        if isStrEq (getKey mkvs "role") "user" then
          match contentToString ((getKey mkvs "content").getD (.str "")) with
          | .error e => .error e
          | .ok s =>
            if pyStrip s = "" then .ok none
            else .ok (some (pyStrip s,
                            (getKey okvs "timestamp").getD (.str ""),
                            (getKey okvs "cwd").getD (.str "")))
        else .ok none
      | _ => .error .attributeError
    else .ok none
  | some _ => .error .attributeError

/-- The Prompt dataclass (src/viewer.py lines 17-28).  timestamp and cwd
hold whatever JSON value obj.get returned (the dataclass does not check
they are strings). -/
structure Prompt where
  index : Nat
  text : String
  session_id : String
  timestamp : Json
  cwd : Json
  char_count : Nat
  highlighted : Bool

/-- Model of constructing Prompt(...) as parse_sessions does:
char_count is overwritten by __post_init__ with len(text), and
highlighted starts at its default False. -/
def Prompt.make (index : Nat) (text : String) (sessionId : String)
    (timestamp cwd : Json) : Prompt :=
  { index := index, text := text, session_id := sessionId,
    timestamp := timestamp, cwd := cwd,
    char_count := text.length, highlighted := false }

/-- Model of the per-file loop of parse_sessions: process the lines of
one file (each line given as its json.loads outcome), threading the
running prompt counter, with session_id = stem[:8].  The first Python
exception aborts the whole parse, as in the source. -/
def parseLines (stem : String) : Nat → List (Option Json) → Except PyErr (List Prompt)
  | _, [] => .ok []
  | idx, l :: ls =>
    match processLine l with
    | .error e => .error e
    | .ok none => parseLines stem idx ls
    | .ok (some (t, ts, cw)) =>
      match parseLines stem (idx + 1) ls with
      | .error e => .error e
      | .ok rest => .ok (Prompt.make idx t (pyTake 8 stem) ts cw :: rest)

/-- One discovered file: its filename (ending in ".jsonl") and its lines,
each line already given as its json.loads outcome. -/
abbrev FileData := String × List (Option Json)

/-- Lexicographic (code-point) order on character lists, as Python
compares strings.  The glob results share the directory prefix, so
comparing the filenames is comparing the full paths. -/
def lexLt : List Char → List Char → Bool
  | [], [] => false
  | [], _ :: _ => true
  | _ :: _, [] => false
  | c :: cs, d :: ds => if c = d then lexLt cs ds else decide (c < d)

/-- Insertion step of the stable ascending sort by filename that models
sorted() over the glob results. -/
def insertFile (f : FileData) : List FileData → List FileData
  | [] => [f]
  | g :: gs => if lexLt g.1.data f.1.data then g :: insertFile f gs
               else f :: g :: gs

/-- Model of sorted(history_dir.glob("*.jsonl")): the discovered files in
lexicographically ascending filename order.  Implemented as a stable
insertion sort; Python's sorted is also stable, and a stable sort by a
total preorder is unique, so the two agree elementwise. -/
def sortFiles (fs : List FileData) : List FileData := fs.foldr insertFile []

/-- The files loop of parse_sessions over the already-sorted file list,
threading the shared prompt counter across files. -/
def parseFilesFrom : Nat → List FileData → Except PyErr (List Prompt)
  | _, [] => .ok []
  | idx, (name, ls) :: fs =>
    match parseLines (fileStem name) idx ls with
    | .error e => .error e
    | .ok ps =>
      match parseFilesFrom (idx + ps.length) fs with
      | .error e => .error e
      | .ok qs => .ok (ps ++ qs)

/-- Model of parse_sessions (src/viewer.py lines 31-69).  The input is
the directory contents: the *.jsonl files with their lines, each line as
its json.loads outcome.  Directory readability is the caller's concern
and is outside the model. -/
def parse_sessions (files : List FileData) : Except PyErr (List Prompt) :=
  parseFilesFrom 0 (sortFiles files)

/-- The view-model state owned by HistoryViewer: the full prompt
collection, the filter text and the two reactive toggles. -/
structure ViewerState where
  all_prompts : List Prompt
  filter_text : String
  show_only_highlighted : Bool
  sort_by_length : Bool

/-- The state HistoryViewer.__init__ builds: filter empty, both reactive
toggles at their declared default False. -/
def viewer_init (prompts : List Prompt) : ViewerState :=
  { all_prompts := prompts, filter_text := "",
    show_only_highlighted := false, sort_by_length := false }

/-- Whether the first character list is an initial segment of the
second. -/
def isPrefixB : List Char → List Char → Bool
  | [], _ => true
  | _ :: _, [] => false
  | c :: cs, d :: ds => (c = d) && isPrefixB cs ds

/-- Whether the needle occurs contiguously somewhere in the haystack,
as the Python `in` operator tests on strings. -/
def containsB (needle : List Char) : List Char → Bool
  | [] => needle.isEmpty
  | c :: rest => isPrefixB needle (c :: rest) || containsB needle rest

/-- Model of the test `ft in p.text.lower()` with ft =
self.filter_text.lower(): case-insensitive substring containment. -/
def containsSubstrCI (hay needle : String) : Bool :=
  containsB (pyLower needle).data (pyLower hay).data

/-- First rebinding of get_visible_prompts (src/viewer.py lines
168-169): keep only highlighted prompts when the toggle is set. -/
def highlightStage (st : ViewerState) (prompts : List Prompt) : List Prompt :=
  if st.show_only_highlighted then prompts.filter (fun p => p.highlighted)
  else prompts

/-- Second rebinding of get_visible_prompts (src/viewer.py lines
170-172): the case-insensitive substring filter, applied when
filter_text is non-empty (Python truthiness of the string). -/
def filterStage (st : ViewerState) (prompts : List Prompt) : List Prompt :=
  if st.filter_text ≠ "" then
    prompts.filter (fun p => containsSubstrCI p.text st.filter_text)
  else prompts

/-- The surviving prompts after the two filter stages of
get_visible_prompts, before the optional sort. -/
def filteredPrompts (st : ViewerState) : List Prompt :=
  filterStage st (highlightStage st st.all_prompts)

/-- Insertion step of the stable descending sort by char_count: walk
past strictly longer prompts, so an inserted (originally earlier)
prompt lands before every later prompt of equal length. -/
def insertDesc (p : Prompt) : List Prompt → List Prompt
  | [] => [p]
  | q :: qs => if p.char_count < q.char_count then q :: insertDesc p qs
               else p :: q :: qs

/-- Model of sorted(prompts, key=lambda p: p.char_count, reverse=True):
stable descending sort by char_count.  Python's sorted is stable and a
stable sort by a total preorder is unique, so this insertion sort agrees
with it elementwise. -/
def sortByCharCountDesc (l : List Prompt) : List Prompt := l.foldr insertDesc []

/-- get_visible_prompts (src/viewer.py lines 166-175). -/
def get_visible_prompts (st : ViewerState) : List Prompt :=
  if st.sort_by_length then sortByCharCountDesc (filteredPrompts st)
  else filteredPrompts st

/-- Flip the highlighted flag of the prompt at position i, as
`p.highlighted = not p.highlighted` does to the shared Prompt object. -/
def toggleAt : List Prompt → Nat → List Prompt
  | [], _ => []
  | p :: ps, 0 => { p with highlighted := !p.highlighted } :: ps
  | p :: ps, n + 1 => p :: toggleAt ps n

/-- action_toggle_highlight (src/viewer.py lines 224-229): the focus is
the position in all_prompts of the ListView's highlighted child, or none
when no prompt is focused, in which case nothing happens. -/
def action_toggle_highlight (st : ViewerState) (focus : Option Nat) : ViewerState :=
  match focus with
  | none => st
  | some i => { st with all_prompts := toggleAt st.all_prompts i }

/-- action_show_highlighted_only (src/viewer.py lines 231-233). -/
def action_show_highlighted_only (st : ViewerState) : ViewerState :=
  { st with show_only_highlighted := !st.show_only_highlighted }

/-- action_show_all (src/viewer.py lines 235-240): reset the three view
toggles; individual highlighted flags are untouched. -/
def action_show_all (st : ViewerState) : ViewerState :=
  { st with show_only_highlighted := false, sort_by_length := false,
            filter_text := "" }

/-- action_sort_longest (src/viewer.py lines 242-244). -/
def action_sort_longest (st : ViewerState) : ViewerState :=
  { st with sort_by_length := !st.sort_by_length }

/-- action_sort_natural (src/viewer.py lines 246-248): forces
sort_by_length to False, never toggles. -/
def action_sort_natural (st : ViewerState) : ViewerState :=
  { st with sort_by_length := false }

/-- Modelled from the spec: the blocks of a content sequence that the
spec says are kept — objects tagged with type "text" (contributing their
text) and bare strings — in sequence order.  Used to compare the code's
block loop against the spec's description. -/
def specBlockTexts (blocks : List Json) : List String :=
  blocks.filterMap (fun b =>
    match b with
    | .obj kvs =>
      if isStrEq (getKey kvs "type") "text" then
        match getKey kvs "text" with
        | some (.str s) => some s
        | _ => none
      else none
    | .str s => some s
    | _ => none)

/-- Concrete example used by several witnesses: a well-formed user line
with the given content value. -/
def userLine (content : Json) : Json :=
  Json.obj [("type", Json.str "user"),
            ("message", Json.obj [("role", Json.str "user"), ("content", content)])]

/-- A content block is well formed when, if it is an object tagged with
type "text", its "text" entry exists and is a string — exactly the
shapes for which the block loop cannot raise. -/
def textBlockOk (b : Json) : Bool :=
  match b with
  | Json.obj kvs =>
    if isStrEq (getKey kvs "type") "text" then
      match getKey kvs "text" with
      | some (Json.str _) => true
      | _ => false
    else true
  | _ => true

/-- The content sequence of the spec's end-to-end scenario 3: a text
block "a", a tool_use block, a text block "b". -/
def blocksScenario : List Json :=
  [Json.obj [("type", Json.str "text"), ("text", Json.str "a")],
   Json.obj [("type", Json.str "tool_use"), ("id", Json.str "x")],
   Json.obj [("type", Json.str "text"), ("text", Json.str "b")]]

/-- Ascending index order, the parser's emission order. -/
abbrev idxAsc (a b : Prompt) : Prop := a.index < b.index

/-- Order produced by the stable descending sort: strictly longer
first, ties in ascending index order. -/
abbrev lenDescStable (a b : Prompt) : Prop :=
  b.char_count < a.char_count ∨
    (a.char_count = b.char_count ∧ a.index < b.index)

/-- Concrete prompt for the case-insensitive filter scenario. -/
def promptHello : Prompt :=
  Prompt.make 0 "say hello world" "sess" (.str "") (.str "")

/-- Concrete state for the case-insensitive filter scenario: one prompt,
filter text "HELLO", both toggles off. -/
def stateHello : ViewerState := ⟨[promptHello], "HELLO", false, false⟩

/-- Concrete prompts for the sorting witness: distinct lengths and a tie. -/
def promptA : Prompt := Prompt.make 0 "aa" "s" (.str "") (.str "")

def promptB : Prompt := Prompt.make 1 "bbbb" "s" (.str "") (.str "")

def promptC : Prompt := Prompt.make 2 "cc" "s" (.str "") (.str "")

/-- Concrete state for the sorting witness: sort_by_length on, no
filters. -/
def stateSort : ViewerState := ⟨[promptA, promptB, promptC], "", false, true⟩

/-- Concrete file list shared by the parser witnesses: two files given
out of lexicographic order, with a malformed line, a non-user record, a
whitespace-only prompt and two real prompts. -/
def filesTwo : List FileData :=
  [("beta.jsonl", [some (userLine (Json.str " two ")), none]),
   ("alpha.jsonl", [none,
                    some (Json.obj [("type", Json.str "summary")]),
                    some (userLine (Json.str "  \n ")),
                    some (userLine (Json.str "one"))])]

/-- The prompts parse_sessions extracts from filesTwo. -/
def promptsTwo : List Prompt :=
  [Prompt.make 0 "one" "alpha" (.str "") (.str ""),
   Prompt.make 1 "two" "beta" (.str "") (.str "")]

/-- Concrete state for the toggle-highlight witness. -/
def stateToggle : ViewerState := ⟨[promptA, promptB], "f", true, true⟩

theorem dropWhile_idem (p : Char → Bool) (l : List Char) :
    (l.dropWhile p).dropWhile p = l.dropWhile p := by
  induction l with
  | nil => rfl
  | cons c cs ih =>
    by_cases h : p c
    · simp [List.dropWhile_cons, h, ih]
    · simp [List.dropWhile_cons, h]

theorem dropWhile_eq_self_of_isPre (p : Char → Bool) (r m : List Char)
    (hpre : r <+: m) (hm : m.dropWhile p = m) : r.dropWhile p = r := by
  cases r with
  | nil => rfl
  | cons c cs =>
    obtain ⟨t, ht⟩ := hpre
    have hc : p c = false := by
      by_contra hc
      have hc' : p c = true := by revert hc; cases p c <;> simp
      have hdm : m.dropWhile p = (cs ++ t).dropWhile p := by
        rw [← ht]; simp [List.cons_append, List.dropWhile_cons, hc']
      rw [hm] at hdm
      have hlen : m.length ≤ (cs ++ t).length := by
        rw [hdm]
        exact (List.dropWhile_suffix p).length_le
      rw [← ht] at hlen
      simp [List.length_append] at hlen
    simp [List.dropWhile_cons, hc]

theorem pyStrip_idem (s : String) : pyStrip (pyStrip s) = pyStrip s := by
  unfold pyStrip
  set p := Char.isWhitespace
  set m := s.data.dropWhile p with hm
  set rrev := m.reverse.dropWhile p with hrrev
  have hdata : (String.mk rrev.reverse).data = rrev.reverse := rfl
  rw [hdata]
  have hmfix : m.dropWhile p = m := dropWhile_idem p s.data
  have hpre : rrev.reverse <+: m := by
    have hsuf : rrev <:+ m.reverse := List.dropWhile_suffix p
    have hsuf2 : rrev.reverse.reverse <:+ m.reverse := by
      rw [List.reverse_reverse]
      exact hsuf
    exact List.reverse_suffix.mp hsuf2
  have h1 : rrev.reverse.dropWhile p = rrev.reverse :=
    dropWhile_eq_self_of_isPre p rrev.reverse m hpre hmfix
  rw [h1, List.reverse_reverse, hrrev, dropWhile_idem]

theorem toggleAt_toggleAt (ps : List Prompt) (i : Nat) :
    toggleAt (toggleAt ps i) i = ps := by
  induction ps generalizing i with
  | nil => cases i <;> rfl
  | cons p ps ih =>
    cases i with
    | zero => simp [toggleAt, Bool.not_not]
    | succ n => simp [toggleAt, ih]

/-- C1: the claim says no exception escapes parseSessions for a line
that is valid JSON not matching the expected user-message shape.  The
code catches only json.JSONDecodeError, so a line whose JSON value is
not an object makes obj.get raise AttributeError, and a user record
whose content holds a text block without a "text" key makes
block["text"] raise KeyError; both escape the parser.  This theorem
evaluates the embedded code at those two failing inputs. -/
theorem parse_raises_on_unexpected_shape :
    parse_sessions [("sess.jsonl", [some (Json.num 5)])] =
      .error .attributeError ∧
    parse_sessions [("sess.jsonl",
      [some (userLine (Json.arr [Json.obj [("type", Json.str "text")]]))])] =
      .error .keyError :=
  ⟨rfl, rfl⟩

/-- C7: resetAll (action_show_all) clears filterText and both toggles,
leaves the prompt collection (hence every highlighted flag) unchanged,
and afterwards — as in the initial all-defaults state — visiblePrompts
is the full collection in original order. -/
theorem show_all_resets_view :
    (∀ st : ViewerState,
      (action_show_all st).filter_text = "" ∧
      (action_show_all st).show_only_highlighted = false ∧
      (action_show_all st).sort_by_length = false ∧
      (action_show_all st).all_prompts = st.all_prompts ∧
      get_visible_prompts (action_show_all st) = st.all_prompts) ∧
    (∀ ps : List Prompt, get_visible_prompts (viewer_init ps) = ps) :=
  ⟨fun _ => ⟨rfl, rfl, rfl, rfl, rfl⟩, fun _ => rfl⟩

/-- C8: each boolean toggle applied twice returns the state to the
original (involution), toggling the highlight of a fixed prompt twice
restores it, while setSortNatural always forces sortByLength to false
and is idempotent but not an involution. -/
theorem toggles_involutive_sort_natural_idem :
    (∀ st : ViewerState,
      action_show_highlighted_only (action_show_highlighted_only st) = st) ∧
    (∀ st : ViewerState, action_sort_longest (action_sort_longest st) = st) ∧
    (∀ (st : ViewerState) (i : Nat),
      action_toggle_highlight (action_toggle_highlight st (some i)) (some i) = st) ∧
    (∀ st : ViewerState, (action_sort_natural st).sort_by_length = false) ∧
    (∀ st : ViewerState,
      action_sort_natural (action_sort_natural st) = action_sort_natural st) ∧
    (∃ st : ViewerState, action_sort_natural (action_sort_natural st) ≠ st) := by
  refine ⟨fun st => ?_, fun st => ?_, fun st i => ?_, fun st => rfl, fun st => rfl, ?_⟩
  · cases st; simp [action_show_highlighted_only, Bool.not_not]
  · cases st; simp [action_sort_longest, Bool.not_not]
  · cases st; simp [action_toggle_highlight, toggleAt_toggleAt]
  · refine ⟨⟨[], "", false, true⟩, fun h => ?_⟩
    have := congrArg ViewerState.sort_by_length h
    simp [action_sort_natural] at this

theorem insertDesc_perm (p : Prompt) (l : List Prompt) :
    List.Perm (insertDesc p l) (p :: l) := by
  induction l with
  | nil => exact List.Perm.refl _
  | cons q qs ih =>
    by_cases h : p.char_count < q.char_count
    · simp only [insertDesc, if_pos h]
      exact (ih.cons q).trans (List.Perm.swap p q qs)
    · simp only [insertDesc, if_neg h]
      exact List.Perm.refl _

theorem sortDesc_perm (l : List Prompt) :
    List.Perm (sortByCharCountDesc l) l := by
  induction l with
  | nil => exact List.Perm.refl _
  | cons p ps ih =>
    exact (insertDesc_perm p (sortByCharCountDesc ps)).trans (ih.cons p)

theorem insertDesc_pairwise (p : Prompt) (l : List Prompt)
    (hl : l.Pairwise lenDescStable) (hp : ∀ q ∈ l, p.index < q.index) :
    (insertDesc p l).Pairwise lenDescStable := by
  induction l with
  | nil => simp [insertDesc]
  | cons q qs ih =>
    rw [List.pairwise_cons] at hl
    obtain ⟨hq, hqs⟩ := hl
    by_cases h : p.char_count < q.char_count
    · simp only [insertDesc, if_pos h]
      rw [List.pairwise_cons]
      refine ⟨fun r hr => ?_, ih hqs (fun r hr => hp r (List.mem_cons_of_mem q hr))⟩
      rcases List.mem_cons.mp ((insertDesc_perm p qs).mem_iff.mp hr) with rfl | hr
      · exact Or.inl h
      · exact hq r hr
    · simp only [insertDesc, if_neg h]
      rw [List.pairwise_cons]
      refine ⟨fun r hr => ?_, by rw [List.pairwise_cons]; exact ⟨hq, hqs⟩⟩
      rcases List.mem_cons.mp hr with rfl | hr
      · rcases Nat.lt_or_ge r.char_count p.char_count with hlt | hge
        · exact Or.inl hlt
        · exact Or.inr ⟨Nat.le_antisymm hge (Nat.not_lt.mp h),
            hp r (List.mem_cons_self r qs)⟩
      · have hrq : r.char_count ≤ q.char_count := by
          rcases hq r hr with h1 | h1
          · exact Nat.le_of_lt h1
          · exact Nat.le_of_eq h1.1.symm
        have hqp : q.char_count ≤ p.char_count := Nat.not_lt.mp h
        rcases Nat.lt_or_ge r.char_count p.char_count with hlt | hge
        · exact Or.inl hlt
        · exact Or.inr ⟨Nat.le_antisymm (le_trans hrq hqp) hge |>.symm,
            hp r (List.mem_cons_of_mem q hr)⟩

theorem sortDesc_pairwise (l : List Prompt) (hl : l.Pairwise idxAsc) :
    (sortByCharCountDesc l).Pairwise lenDescStable := by
  induction l with
  | nil => simp [sortByCharCountDesc]
  | cons p ps ih =>
    rw [List.pairwise_cons] at hl
    exact insertDesc_pairwise p _ (ih hl.2)
      (fun q hq => hl.1 q ((sortDesc_perm ps).mem_iff.mp hq))

theorem highlightStage_sublist (st : ViewerState) (l : List Prompt) :
    List.Sublist (highlightStage st l) l := by
  unfold highlightStage
  by_cases h : st.show_only_highlighted = true
  · rw [if_pos h]; exact List.filter_sublist l
  · rw [if_neg h]

theorem filterStage_sublist (st : ViewerState) (l : List Prompt) :
    List.Sublist (filterStage st l) l := by
  unfold filterStage
  by_cases h : st.filter_text ≠ ""
  · rw [if_pos h]; exact List.filter_sublist l
  · rw [if_neg h]

theorem filteredPrompts_pairwise (st : ViewerState)
    (hinc : st.all_prompts.Pairwise idxAsc) :
    (filteredPrompts st).Pairwise idxAsc :=
  List.Pairwise.sublist
    ((filterStage_sublist st _).trans (highlightStage_sublist st _)) hinc

theorem mem_highlightStage (st : ViewerState) (l : List Prompt) (p : Prompt)
    (h : p ∈ highlightStage st l) :
    p ∈ l ∧ (st.show_only_highlighted = true → p.highlighted = true) := by
  unfold highlightStage at h
  by_cases hs : st.show_only_highlighted = true
  · rw [if_pos hs] at h
    obtain ⟨hm, hp⟩ := List.mem_filter.mp h
    exact ⟨hm, fun _ => hp⟩
  · rw [if_neg hs] at h
    exact ⟨h, fun hc => absurd hc hs⟩

theorem mem_filterStage (st : ViewerState) (l : List Prompt) (p : Prompt)
    (h : p ∈ filterStage st l) :
    p ∈ l ∧ (st.filter_text ≠ "" → containsSubstrCI p.text st.filter_text = true) := by
  unfold filterStage at h
  by_cases hs : st.filter_text ≠ ""
  · rw [if_pos hs] at h
    obtain ⟨hm, hp⟩ := List.mem_filter.mp h
    exact ⟨hm, fun _ => hp⟩
  · rw [if_neg hs] at h
    exact ⟨h, fun hc => absurd hc hs⟩

/-- C2: with sortByLength set, visiblePrompts is a permutation of the
surviving (filtered) prompts, ordered by charCount descending, and any
two visible prompts of equal charCount keep their relative index order
(the stable-sort guarantee).  The index hypothesis is the parser
invariant that the owned collection is in strictly increasing index
order. -/
theorem visible_sorted_by_length_stable (st : ViewerState)
    (hs : st.sort_by_length = true)
    (hinc : st.all_prompts.Pairwise idxAsc) :
    List.Perm (get_visible_prompts st) (filteredPrompts st) ∧
    (get_visible_prompts st).Pairwise
      (fun a b => b.char_count ≤ a.char_count) ∧
    (get_visible_prompts st).Pairwise
      (fun a b => a.char_count = b.char_count → a.index < b.index) := by
  have hvis : get_visible_prompts st = sortByCharCountDesc (filteredPrompts st) := by
    unfold get_visible_prompts
    rw [if_pos hs]
  have hpw := sortDesc_pairwise _ (filteredPrompts_pairwise st hinc)
  refine ⟨by rw [hvis]; exact sortDesc_perm _, ?_, ?_⟩
  · rw [hvis]
    refine hpw.imp (fun hab => ?_)
    rcases hab with h1 | h1
    · exact Nat.le_of_lt h1
    · exact Nat.le_of_eq h1.1.symm
  · rw [hvis]
    refine hpw.imp (fun hab => ?_)
    rcases hab with h1 | h1
    · intro he; omega
    · exact fun _ => h1.2

/-- Witness for C2 at a concrete state with a char_count tie. -/
theorem visible_sorted_by_length_stable_witness :
    (stateSort.sort_by_length = true ∧ stateSort.all_prompts.Pairwise idxAsc) ∧
    (List.Perm (get_visible_prompts stateSort) (filteredPrompts stateSort) ∧
    (get_visible_prompts stateSort).Pairwise
      (fun a b => b.char_count ≤ a.char_count) ∧
    (get_visible_prompts stateSort).Pairwise
      (fun a b => a.char_count = b.char_count → a.index < b.index)) :=
  ⟨⟨rfl, by decide⟩, visible_sorted_by_length_stable stateSort rfl (by decide)⟩

/-- C6: every element of visiblePrompts belongs to the full collection
and satisfies each active predicate: highlighted when the
highlighted-only toggle is set, and case-insensitive substring match
when the filter text is non-empty. -/
theorem visible_mem_filters (st : ViewerState) (p : Prompt)
    (h : p ∈ get_visible_prompts st) :
    p ∈ st.all_prompts ∧
    (st.show_only_highlighted = true → p.highlighted = true) ∧
    (st.filter_text ≠ "" → containsSubstrCI p.text st.filter_text = true) := by
  have hf : p ∈ filteredPrompts st := by
    unfold get_visible_prompts at h
    by_cases hs : st.sort_by_length = true
    · rw [if_pos hs] at h
      exact (sortDesc_perm _).mem_iff.mp h
    · rw [if_neg hs] at h
      exact h
  obtain ⟨hh, hfil⟩ := mem_filterStage st _ p hf
  obtain ⟨hm, hhl⟩ := mem_highlightStage st _ p hh
  exact ⟨hm, hhl, hfil⟩

/-- Witness for C6: the spec's scenario 4 — filter text "HELLO" matches
the prompt whose text is "say hello world", which indeed appears in
visiblePrompts and satisfies the active predicates. -/
theorem visible_mem_filters_witness :
    promptHello ∈ get_visible_prompts stateHello ∧
    (promptHello ∈ stateHello.all_prompts ∧
    (stateHello.show_only_highlighted = true → promptHello.highlighted = true) ∧
    (stateHello.filter_text ≠ "" →
      containsSubstrCI promptHello.text stateHello.filter_text = true)) :=
  ⟨List.Mem.head _, visible_mem_filters stateHello promptHello (List.Mem.head _)⟩

theorem strParts_map_str (ss : List String) :
    strParts (ss.map Json.str) = some ss := by
  induction ss with
  | nil => rfl
  | cons s ss ih => simp [strParts, ih]

theorem collectParts_ok (blocks : List Json)
    (h : ∀ b ∈ blocks, textBlockOk b = true) :
    collectParts blocks = .ok ((specBlockTexts blocks).map Json.str) := by
  induction blocks with
  | nil => rfl
  | cons b bs ih =>
    have hb := h b (List.mem_cons_self b bs)
    have hbs := ih (fun x hx => h x (List.mem_cons_of_mem b hx))
    cases b with
    | obj kvs =>
      by_cases ht : isStrEq (getKey kvs "type") "text" = true
      · simp only [textBlockOk, if_pos ht] at hb
        cases hv : getKey kvs "text" with
        | none => rw [hv] at hb; simp at hb
        | some v =>
          cases v with
          | str s =>
            simp only [collectParts, if_pos ht, hv, hbs]
            simp only [specBlockTexts, List.filterMap_cons]
            simp [ht, hv, specBlockTexts]
          | null => rw [hv] at hb; simp at hb
          | bool b => rw [hv] at hb; simp at hb
          | num n => rw [hv] at hb; simp at hb
          | arr l => rw [hv] at hb; simp at hb
          | obj l => rw [hv] at hb; simp at hb
      · simp only [collectParts, if_neg ht, hbs]
        simp only [specBlockTexts, List.filterMap_cons]
        simp [ht, specBlockTexts]
    | str s =>
      simp only [collectParts, hbs]
      simp only [specBlockTexts, List.filterMap_cons]
      simp [specBlockTexts]
    | null =>
      simp only [collectParts, hbs]
      simp [specBlockTexts, List.filterMap_cons]
    | bool bb =>
      simp only [collectParts, hbs]
      simp [specBlockTexts, List.filterMap_cons]
    | num n =>
      simp only [collectParts, hbs]
      simp [specBlockTexts, List.filterMap_cons]
    | arr l =>
      simp only [collectParts, hbs]
      simp [specBlockTexts, List.filterMap_cons]

/-- C4: when a kept record's content is a sequence, exactly the text
blocks and bare strings survive, in order, joined with a newline; the
hypothesis is that each text block carries a string "text" entry, the
shape on which the code does not raise. -/
theorem content_list_extraction (blocks : List Json)
    (h : ∀ b ∈ blocks, textBlockOk b = true) :
    contentToString (Json.arr blocks) =
      .ok (String.intercalate "\n" (specBlockTexts blocks)) := by
  simp [contentToString, collectParts_ok blocks h, joinParts, strParts_map_str]

/-- Witness for C4: the spec's scenario 3 — text "a", a tool_use block,
text "b" extract to "a\nb". -/
theorem content_list_extraction_witness :
    (∀ b ∈ blocksScenario, textBlockOk b = true) ∧
    contentToString (Json.arr blocksScenario) =
      .ok (String.intercalate "\n" (specBlockTexts blocksScenario)) ∧
    String.intercalate "\n" (specBlockTexts blocksScenario) = "a\nb" :=
  ⟨by decide, content_list_extraction blocksScenario (by decide), rfl⟩

theorem processLine_ok_inv (line : Option Json) (t : String) (ts cw : Json)
    (h : processLine line = .ok (some (t, ts, cw))) :
    pyStrip t = t ∧ t ≠ "" := by
  unfold processLine at h
  cases line with
  | none => simp at h
  | some j =>
    cases j with
    | obj okvs =>
      by_cases h1 : isStrEq (getKey okvs "type") "user" = true
      · simp only [if_pos h1] at h
        cases hmsg : (getKey okvs "message").getD (Json.obj []) with
        | obj mkvs =>
          rw [hmsg] at h
          by_cases h2 : isStrEq (getKey mkvs "role") "user" = true
          · simp only [if_pos h2] at h
            cases hct : contentToString ((getKey mkvs "content").getD (Json.str "")) with
            | error e => rw [hct] at h; simp at h
            | ok s =>
              rw [hct] at h
              by_cases h3 : pyStrip s = ""
              · simp only [if_pos h3] at h
                simp at h
              · simp only [if_neg h3] at h
                simp only [Except.ok.injEq, Option.some.injEq, Prod.mk.injEq] at h
                obtain ⟨hts, -, -⟩ := h
                subst hts
                exact ⟨pyStrip_idem s, h3⟩
          · simp only [if_neg h2] at h
            simp at h
        | null => rw [hmsg] at h; simp at h
        | bool b => rw [hmsg] at h; simp at h
        | num n => rw [hmsg] at h; simp at h
        | str s => rw [hmsg] at h; simp at h
        | arr l => rw [hmsg] at h; simp at h
      · simp only [if_neg h1] at h
        simp at h
    | null => simp at h
    | bool b => simp at h
    | num n => simp at h
    | str s => simp at h
    | arr l => simp at h

theorem parseLines_mem (stem : String) (ls : List (Option Json)) :
    ∀ (idx : Nat) (ps : List Prompt), parseLines stem idx ls = .ok ps →
      ∀ p ∈ ps, p.char_count = p.text.length ∧ pyStrip p.text = p.text ∧
        p.text ≠ "" ∧ p.session_id = pyTake 8 stem := by
  induction ls with
  | nil =>
    intro idx ps h p hp
    simp only [parseLines, Except.ok.injEq] at h
    subst h
    simp at hp
  | cons l ls ih =>
    intro idx ps h p hp
    unfold parseLines at h
    cases hpl : processLine l with
    | error e => rw [hpl] at h; simp at h
    | ok o =>
      rw [hpl] at h
      cases o with
      | none => exact ih idx ps h p hp
      | some tup =>
        obtain ⟨t, ts, cw⟩ := tup
        cases hrest : parseLines stem (idx + 1) ls with
        | error e => rw [hrest] at h; simp at h
        | ok rest =>
          rw [hrest] at h
          simp only [Except.ok.injEq] at h
          subst h
          rcases List.mem_cons.mp hp with rfl | hp
          · have hinv := processLine_ok_inv l t ts cw hpl
            exact ⟨rfl, hinv.1, hinv.2, rfl⟩
          · exact ih (idx + 1) rest hrest p hp

theorem parseLines_indices (stem : String) (ls : List (Option Json)) :
    ∀ (idx : Nat) (ps : List Prompt), parseLines stem idx ls = .ok ps →
      ps.map Prompt.index = List.range' idx ps.length := by
  induction ls with
  | nil =>
    intro idx ps h
    simp only [parseLines, Except.ok.injEq] at h
    subst h
    rfl
  | cons l ls ih =>
    intro idx ps h
    unfold parseLines at h
    cases hpl : processLine l with
    | error e => rw [hpl] at h; simp at h
    | ok o =>
      rw [hpl] at h
      cases o with
      | none => exact ih idx ps h
      | some tup =>
        obtain ⟨t, ts, cw⟩ := tup
        cases hrest : parseLines stem (idx + 1) ls with
        | error e => rw [hrest] at h; simp at h
        | ok rest =>
          rw [hrest] at h
          simp only [Except.ok.injEq] at h
          subst h
          have htail := ih (idx + 1) rest hrest
          simp only [List.map_cons, htail, List.length_cons]
          rfl

theorem insertFile_perm (f : FileData) (l : List FileData) :
    List.Perm (insertFile f l) (f :: l) := by
  induction l with
  | nil => exact List.Perm.refl _
  | cons g gs ih =>
    by_cases h : lexLt g.1.data f.1.data = true
    · simp only [insertFile, if_pos h]
      exact (ih.cons g).trans (List.Perm.swap f g gs)
    · simp only [insertFile, if_neg h]
      exact List.Perm.refl _

theorem sortFiles_perm (fs : List FileData) : List.Perm (sortFiles fs) fs := by
  induction fs with
  | nil => exact List.Perm.refl _
  | cons f fs ih => exact (insertFile_perm f (sortFiles fs)).trans (ih.cons f)

theorem parseFilesFrom_mem (fs : List FileData) :
    ∀ (idx : Nat) (ps : List Prompt), parseFilesFrom idx fs = .ok ps →
      ∀ p ∈ ps, p.char_count = p.text.length ∧ pyStrip p.text = p.text ∧
        p.text ≠ "" ∧ ∃ f ∈ fs, p.session_id = pyTake 8 (fileStem f.1) := by
  induction fs with
  | nil =>
    intro idx ps h p hp
    simp only [parseFilesFrom, Except.ok.injEq] at h
    subst h
    simp at hp
  | cons f fs ih =>
    intro idx ps h p hp
    obtain ⟨name, ls⟩ := f
    unfold parseFilesFrom at h
    cases hpl : parseLines (fileStem name) idx ls with
    | error e => rw [hpl] at h; simp at h
    | ok qs =>
      rw [hpl] at h
      dsimp only at h
      cases hrest : parseFilesFrom (idx + qs.length) fs with
      | error e => rw [hrest] at h; simp at h
      | ok rs =>
        rw [hrest] at h
        simp only [Except.ok.injEq] at h
        subst h
        rcases List.mem_append.mp hp with hq | hr
        · have hm := parseLines_mem _ _ idx qs hpl p hq
          exact ⟨hm.1, hm.2.1, hm.2.2.1,
                 ⟨(name, ls), List.mem_cons_self _ _, hm.2.2.2⟩⟩
        · have hm := ih _ rs hrest p hr
          obtain ⟨g, hg, hsid⟩ := hm.2.2.2
          exact ⟨hm.1, hm.2.1, hm.2.2.1, ⟨g, List.mem_cons_of_mem _ hg, hsid⟩⟩

theorem parseFilesFrom_indices (fs : List FileData) :
    ∀ (idx : Nat) (ps : List Prompt), parseFilesFrom idx fs = .ok ps →
      ps.map Prompt.index = List.range' idx ps.length := by
  induction fs with
  | nil =>
    intro idx ps h
    simp only [parseFilesFrom, Except.ok.injEq] at h
    subst h
    rfl
  | cons f fs ih =>
    intro idx ps h
    obtain ⟨name, ls⟩ := f
    unfold parseFilesFrom at h
    cases hpl : parseLines (fileStem name) idx ls with
    | error e => rw [hpl] at h; simp at h
    | ok qs =>
      rw [hpl] at h
      dsimp only at h
      cases hrest : parseFilesFrom (idx + qs.length) fs with
      | error e => rw [hrest] at h; simp at h
      | ok rs =>
        rw [hrest] at h
        simp only [Except.ok.injEq] at h
        subst h
        have h1 := parseLines_indices _ _ idx qs hpl
        have h2 := ih (idx + qs.length) rs hrest
        rw [List.map_append, h1, h2, List.length_append]
        have h3 := List.range'_append idx qs.length rs.length 1
        simp only [Nat.one_mul] at h3
        rw [h3, Nat.add_comm rs.length qs.length]

/-- C3: the prompts come out in emission order — files in sorted
filename order, then line order — with index assigned from a running
counter shared across files, so the indices in output position are
exactly 0, 1, 2, ... and the parser never re-sorts its output. -/
theorem parse_indices_are_positions (files : List FileData) (ps : List Prompt)
    (h : parse_sessions files = .ok ps) :
    ps.map Prompt.index = List.range ps.length := by
  rw [List.range_eq_range']
  exact parseFilesFrom_indices (sortFiles files) 0 ps h

/-- Witness for C3 on a two-file directory given out of lexicographic
order, containing malformed, non-user and whitespace-only lines. -/
theorem parse_indices_are_positions_witness :
    parse_sessions filesTwo = .ok promptsTwo ∧
    promptsTwo.map Prompt.index = List.range promptsTwo.length :=
  ⟨rfl, parse_indices_are_positions filesTwo promptsTwo rfl⟩

/-- C5: every emitted prompt has char_count equal to the length of its
text, its text equal to its own stripped form, and non-empty text
(whitespace-only records are dropped). -/
theorem prompt_text_invariants (files : List FileData) (ps : List Prompt)
    (h : parse_sessions files = .ok ps) :
    ∀ p ∈ ps, p.char_count = p.text.length ∧ pyStrip p.text = p.text ∧
      p.text ≠ "" := by
  intro p hp
  have hm := parseFilesFrom_mem (sortFiles files) 0 ps h p hp
  exact ⟨hm.1, hm.2.1, hm.2.2.1⟩

/-- Witness for C5 on the concrete two-file directory. -/
theorem prompt_text_invariants_witness :
    parse_sessions filesTwo = .ok promptsTwo ∧
    (∀ p ∈ promptsTwo, p.char_count = p.text.length ∧
      pyStrip p.text = p.text ∧ p.text ≠ "") :=
  ⟨rfl, prompt_text_invariants filesTwo promptsTwo rfl⟩

/-- C10: every emitted prompt's session_id is the prefix of its source
file's stem of length min 8 (length of the stem): the first 8 characters
of the stem, or the whole stem unchanged when it is shorter than 8, with
no padding and no error. -/
theorem session_id_from_stem (files : List FileData) (ps : List Prompt)
    (h : parse_sessions files = .ok ps) :
    ∀ p ∈ ps, ∃ f ∈ files, p.session_id = pyTake 8 (fileStem f.1) ∧
      p.session_id.length = min 8 (fileStem f.1).length ∧
      ((fileStem f.1).length ≤ 8 → p.session_id = fileStem f.1) := by
  intro p hp
  obtain ⟨f, hf, hsid⟩ :=
    (parseFilesFrom_mem (sortFiles files) 0 ps h p hp).2.2.2
  refine ⟨f, (sortFiles_perm files).mem_iff.mp hf, hsid, ?_, ?_⟩
  · rw [hsid]
    show ((fileStem f.1).data.take 8).length = min 8 (fileStem f.1).length
    rw [List.length_take]
    rfl
  · intro hle
    rw [hsid]
    have h8 : List.take 8 (fileStem f.1).data = (fileStem f.1).data :=
      List.take_of_length_le hle
    show String.mk (List.take 8 (fileStem f.1).data) = fileStem f.1
    rw [h8]

/-- Witness for C10: the stems "alpha" and "beta" are shorter than 8
characters and survive whole. -/
theorem session_id_from_stem_witness :
    parse_sessions filesTwo = .ok promptsTwo ∧
    (∀ p ∈ promptsTwo, ∃ f ∈ filesTwo,
      p.session_id = pyTake 8 (fileStem f.1) ∧
      p.session_id.length = min 8 (fileStem f.1).length ∧
      ((fileStem f.1).length ≤ 8 → p.session_id = fileStem f.1)) :=
  ⟨rfl, session_id_from_stem filesTwo promptsTwo rfl⟩

theorem toggleAt_length (ps : List Prompt) (i : Nat) :
    (toggleAt ps i).length = ps.length := by
  induction ps generalizing i with
  | nil => cases i <;> rfl
  | cons p ps ih =>
    cases i with
    | zero => rfl
    | succ n => simp [toggleAt, ih]

theorem toggleAt_getElem_ne (ps : List Prompt) (i j : Nat) (h : j ≠ i) :
    (toggleAt ps i)[j]? = ps[j]? := by
  induction ps generalizing i j with
  | nil => cases i <;> rfl
  | cons p ps ih =>
    cases i with
    | zero =>
      cases j with
      | zero => exact absurd rfl h
      | succ m => simp [toggleAt]
    | succ n =>
      cases j with
      | zero => simp [toggleAt, List.getElem?_cons_zero]
      | succ m =>
        simp only [toggleAt, List.getElem?_cons_succ]
        exact ih n m (fun hc => h (by rw [hc]))

theorem toggleAt_getElem_eq (ps : List Prompt) (i : Nat) (h : i < ps.length) :
    ∃ p, ps[i]? = some p ∧
      (toggleAt ps i)[i]? = some { p with highlighted := !p.highlighted } := by
  induction ps generalizing i with
  | nil => simp at h
  | cons q ps ih =>
    cases i with
    | zero => exact ⟨q, by simp, by simp [toggleAt]⟩
    | succ n =>
      have hn : n < ps.length := by simpa using h
      obtain ⟨p, h1, h2⟩ := ih n hn
      refine ⟨p, ?_, ?_⟩
      · simpa [List.getElem?_cons_succ] using h1
      · simpa [toggleAt, List.getElem?_cons_succ] using h2

/-- C9: toggling the highlight of the focused prompt flips exactly that
prompt's highlighted flag — the collection keeps its length, every other
position is untouched, the focused prompt keeps all its other fields,
the three view toggles are unchanged — and with no focused prompt the
action is a complete no-op. -/
theorem toggle_highlight_frame (st : ViewerState) (i : Nat)
    (h : i < st.all_prompts.length) :
    ((action_toggle_highlight st (some i)).all_prompts.length
        = st.all_prompts.length) ∧
    (∀ j, j ≠ i →
      (action_toggle_highlight st (some i)).all_prompts[j]? =
        st.all_prompts[j]?) ∧
    (∃ p p', st.all_prompts[i]? = some p ∧
      (action_toggle_highlight st (some i)).all_prompts[i]? = some p' ∧
      p'.highlighted = !p.highlighted ∧ p'.index = p.index ∧
      p'.text = p.text ∧ p'.session_id = p.session_id ∧
      p'.timestamp = p.timestamp ∧ p'.cwd = p.cwd ∧
      p'.char_count = p.char_count) ∧
    (action_toggle_highlight st (some i)).filter_text = st.filter_text ∧
    (action_toggle_highlight st (some i)).show_only_highlighted
        = st.show_only_highlighted ∧
    (action_toggle_highlight st (some i)).sort_by_length
        = st.sort_by_length ∧
    (∀ st' : ViewerState, action_toggle_highlight st' none = st') := by
  refine ⟨toggleAt_length _ _, fun j hj => toggleAt_getElem_ne _ _ _ hj,
          ?_, rfl, rfl, rfl, fun _ => rfl⟩
  obtain ⟨p, h1, h2⟩ := toggleAt_getElem_eq st.all_prompts i h
  exact ⟨p, { p with highlighted := !p.highlighted }, h1, h2,
         rfl, rfl, rfl, rfl, rfl, rfl, rfl⟩

/-- Witness for C9 at a concrete two-prompt state with focus on
position 0. -/
theorem toggle_highlight_frame_witness :
    0 < stateToggle.all_prompts.length ∧
    (((action_toggle_highlight stateToggle (some 0)).all_prompts.length
        = stateToggle.all_prompts.length) ∧
    (∀ j, j ≠ 0 →
      (action_toggle_highlight stateToggle (some 0)).all_prompts[j]? =
        stateToggle.all_prompts[j]?) ∧
    (∃ p p', stateToggle.all_prompts[0]? = some p ∧
      (action_toggle_highlight stateToggle (some 0)).all_prompts[0]? = some p' ∧
      p'.highlighted = !p.highlighted ∧ p'.index = p.index ∧
      p'.text = p.text ∧ p'.session_id = p.session_id ∧
      p'.timestamp = p.timestamp ∧ p'.cwd = p.cwd ∧
      p'.char_count = p.char_count) ∧
    (action_toggle_highlight stateToggle (some 0)).filter_text
        = stateToggle.filter_text ∧
    (action_toggle_highlight stateToggle (some 0)).show_only_highlighted
        = stateToggle.show_only_highlighted ∧
    (action_toggle_highlight stateToggle (some 0)).sort_by_length
        = stateToggle.sort_by_length ∧
    (∀ st' : ViewerState, action_toggle_highlight st' none = st')) :=
  ⟨by decide, toggle_highlight_frame stateToggle 0 (by decide)⟩
